import Mathlib

/-!
Verification of the transactional append-resolve-merge-retry engine of
`bayandin/github-comment`, shallowly embedded from the source
(`src/unnamed/part_000`, the source_key-aware variant the spec adopts
as authoritative; `src/index.js` is the simpler single-writer variant).
-/

namespace GithubComment

/-! ## Constants from the source -/

/-- Maximum number of attempts (`MAX_RETRIES` in the source). -/
def MAX_RETRIES : Nat := 3

/-- Base retry delay in milliseconds, from the source. -/
def RETRY_DELAY : Nat := 1000

/-- PostgreSQL error codes that indicate concurrency issues
(`RETRY_ERROR_CODES` in the source). -/
def RETRY_ERROR_CODES : List String := ["55P03", "40P01", "57014"]

/-! ## Data model: the `pr_comments` table -/

/-- One row of the `pr_comments` table:
`pr_comments(id, pr_number, commit_sha, message, created_at, source, run_id, run_attempt)`.
Timestamps are modelled as naturals. -/
structure Row where
  id : Nat
  pr_number : Nat
  commit_sha : String
  message : String
  created_at : Nat
  source : String
  run_id : Nat
  run_attempt : Nat
  deriving Repr, DecidableEq

/-- The `(run_id, run_attempt)` pair of a row, compared lexicographically. -/
def runKey (r : Row) : Nat × Nat := (r.run_id, r.run_attempt)

/-- Lexicographic `≤` on `(run_id, run_attempt)` pairs. -/
def pairLe (p q : Nat × Nat) : Prop :=
  p.1 < q.1 ∨ (p.1 = q.1 ∧ p.2 ≤ q.2)

instance : DecidableRel pairLe := fun p q => by
  unfold pairLe; infer_instance

/-- Comparison for `ORDER BY run_id DESC, run_attempt DESC`: `betterRun r a = true` iff `r`
strictly precedes `a` in that order, i.e. `runKey r` is lexicographically
greater than `runKey a`. -/
def betterRun (r a : Row) : Bool :=
  decide (a.run_id < r.run_id) ||
    (decide (a.run_id = r.run_id) && decide (a.run_attempt < r.run_attempt))

/-- Rows of the table visible to the resolve query: those with the given
`pr_number` and `commit_sha` (the `WHERE` clause of the CTE). -/
def matchingRows (pr : Nat) (sha : String) (rows : List Row) : List Row :=
  rows.filter (fun r => r.pr_number == pr && r.commit_sha == sha)

/-- One step of scanning for the first row in
`ORDER BY run_id DESC, run_attempt DESC` order. -/
def pickStep (acc : Option Row) (r : Row) : Option Row :=
  match acc with
  | none => some r
  | some a => if betterRun r a then some r else some a

/-- Scan implementing `DISTINCT ON (source) ... ORDER BY source, run_id DESC, run_attempt DESC`:
it
keeps, per source, the row that comes first in descending `(run_id, run_attempt)`
order: the row with the maximal run key (first such row on ties). -/
def pickMax (l : List Row) : Option Row :=
  l.foldl pickStep none

/-- The latest row for a given source among the given rows. -/
def latestForSource (s : String) (rows : List Row) : Option Row :=
  pickMax (rows.filter (fun r => r.source == s))

/-- The distinct sources appearing in a row list, in first-appearance order. -/
def sourcesOf (rows : List Row) : List String :=
  (rows.map (fun r => r.source)).dedup

/-- Ordering `ORDER BY created_at ASC` of the outer query. -/
def createdLe (a b : Row) : Prop := a.created_at ≤ b.created_at

instance : DecidableRel createdLe := fun a b => Nat.decLe a.created_at b.created_at

instance : IsTotal Row createdLe := ⟨fun a b => Nat.le_total a.created_at b.created_at⟩

instance : IsTrans Row createdLe := ⟨fun _ _ _ => Nat.le_trans⟩

/-- The resolve query of the Append-Resolve Transaction:
```
WITH latest_runs AS (
  SELECT DISTINCT ON (source) id, message, created_at, source, run_id, run_attempt
  FROM pr_comments WHERE pr_number = $1 AND commit_sha = $2
  ORDER BY source, run_id DESC, run_attempt DESC)
SELECT * FROM latest_runs ORDER BY created_at ASC
```
-/
def resolvedView (pr : Nat) (sha : String) (rows : List Row) : List Row :=
  let m := matchingRows pr sha rows
  List.insertionSort createdLe
    ((sourcesOf m).filterMap (fun s => latestForSource s m))

/-! ## Source Key Generator (`generateSource`) -/

/-- The outcome of handling the optional matrix descriptor in `generateSource`:
`absent` models a missing/empty (falsy) `matrixInput`; `malformed` models a
present descriptor on which `JSON.parse` (or `Object.entries`) throws;
`parsed` carries the entries of the parsed object, with values already
stringified (as the template literal `${key}=${value}` does). -/
inductive MatrixInput where
  | absent
  | malformed
  | parsed (entries : List (String × String))
  deriving Repr, DecidableEq

/-- Entry strings: `Object.entries(matrix).map` with the template `key=value`. -/
def entryStrings (entries : List (String × String)) : List String :=
  entries.map (fun kv => kv.1 ++ "=" ++ kv.2)

/-- String `≤` used for `.sort()` of the entry strings. -/
def strLe (a b : String) : Prop := a ≤ b

instance : DecidableRel strLe := fun a b => by
  unfold strLe; infer_instance

instance : IsTotal String strLe := ⟨fun a b => le_total a b⟩

instance : IsTrans String strLe := ⟨fun _ _ _ h1 h2 => le_trans h1 h2⟩

instance : IsAntisymm String strLe := ⟨fun _ _ h1 h2 => le_antisymm h1 h2⟩

/-- The `matrixParams` string computed by `generateSource`, together with
whether the `core.warning` side effect fired. -/
def matrixParamsOf : MatrixInput → String × Bool
  | .absent => ("", false)
  | .malformed => ("", true)
  | .parsed entries =>
    (String.intercalate "," (List.insertionSort strLe (entryStrings entries)), false)

/-- The `generateSource` function from the source: returns the source key and whether a
parse warning was emitted. The key is `workflow/job(k1=v1,...)` when the
sorted, comma-joined matrix parameter string is non-empty (truthy), else
`workflow/job`. -/
def generateSource (workflow job : String) (mi : MatrixInput) : String × Bool :=
  let mp := matrixParamsOf mi
  (if mp.1 ≠ "" then workflow ++ "/" ++ job ++ "(" ++ mp.1 ++ ")"
   else workflow ++ "/" ++ job, mp.2)

/-! ## External Sync: locating the canonical comment -/

/-- A listed external comment: `{id, user: {type}, body}`. -/
structure Comment where
  id : Nat
  userType : String
  body : String
  deriving Repr, DecidableEq

/-- Scan via `pat.isPrefixOf`: does `pat` occur as a contiguous
run inside the character list? (JavaScript `String.prototype.includes`.) -/
def charsContain (pat : List Char) : List Char → Bool
  | [] => pat.isEmpty
  | c :: rest => pat.isPrefixOf (c :: rest) || charsContain pat rest

/-- JavaScript `s.includes(pat)`. -/
def strContainsSub (s pat : String) : Bool :=
  charsContain pat.data s.data

/-- The fixed marker substring the source scans comment bodies for; note it
does not mention any revision id. -/
def MARKER : String := "Automated Workflow Results for commit"

/-- The predicate of the `prComments.data.find(...)` call: authored by a Bot
and containing the fixed marker. -/
def isTargetComment (c : Comment) : Bool :=
  c.userType == "Bot" && strContainsSub c.body MARKER

/-- The call `prComments.data.find(c => c.user.type === 'Bot' &&
comment.body.includes('Automated Workflow Results for commit'))`. -/
def findBotComment (comments : List Comment) : Option Comment :=
  comments.find? isTargetComment

/-! ## Error model and classification -/

/-- A JavaScript error value as the retry loop inspects it: GitHub API errors
carry an HTTP `status`; PostgreSQL errors carry a SQLSTATE `code`. -/
structure JsError where
  status : Option Nat
  code : Option String
  message : String
  deriving Repr, DecidableEq

/-- Truthiness of `error.status` in `if (error.status)`. -/
def statusTruthy (e : JsError) : Bool :=
  match e.status with
  | none => false
  | some s => s != 0

/-- Membership test `RETRY_ERROR_CODES.has(error.code)`. -/
def isRetryCode (e : JsError) : Bool :=
  match e.code with
  | none => false
  | some c => RETRY_ERROR_CODES.contains c

/-! ## One attempt of `processWithRetry` -/

/-- Observable operations performed during one attempt, in order. -/
inductive Event where
  | connect
  | beginTx
  | insertRow
  | queryResolve
  | listComments
  | updateComment (id : Nat)
  | createComment
  | commitTx
  | rollbackTx
  | endConn
  deriving Repr, DecidableEq

/-- Which step of the attempt body fails, if any; a failing step throws the
given error. `writeFail` covers both `updateComment` and `createComment`. -/
inductive StepOutcome where
  | ok
  | connectFail (e : JsError)
  | beginFail (e : JsError)
  | insertFail (e : JsError)
  | selectFail (e : JsError)
  | listFail (e : JsError)
  | writeFail (e : JsError)
  | commitFail (e : JsError)
  deriving Repr, DecidableEq

/-- The error a step outcome throws, if any. -/
def stepError : StepOutcome → Option JsError
  | .ok => none
  | .connectFail e => some e
  | .beginFail e => some e
  | .insertFail e => some e
  | .selectFail e => some e
  | .listFail e => some e
  | .writeFail e => some e
  | .commitFail e => some e

/-- The External Sync write performed on success of the list step: update the
found canonical comment in place, else create a new one. -/
def syncEvent (gh : List Comment) : Event :=
  match findBotComment gh with
  | some c => .updateComment c.id
  | none => .createComment

/-- Result of one attempt: the durable store afterwards, the executed
operations in order, and the thrown error (`none` = returned normally). -/
structure AttemptResult where
  store : List Row
  events : List Event
  error : Option JsError
  deriving Repr, DecidableEq

/-- One iteration of the `for` loop body in `processWithRetry`
(`src/unnamed/part_000`): connect; then inside `try { BEGIN; INSERT;
SELECT (resolve); listComments; update-or-create; COMMIT; end; return }
catch { ROLLBACK; rethrow } finally { end }`. The inserted row becomes
durable only if `COMMIT` runs; every failure inside the transaction rolls
back. A failing `connect` skips the inner `try/finally` entirely, so no
`end` runs. On the success path `client.end()` runs twice: once explicitly
before `return` and once in the `finally` block. -/
def runAttempt (store : List Row) (row : Row) (gh : List Comment) :
    StepOutcome → AttemptResult
  | .ok =>
    ⟨store ++ [row],
      [.connect, .beginTx, .insertRow, .queryResolve, .listComments,
        syncEvent gh, .commitTx, .endConn, .endConn], none⟩
  | .connectFail e => ⟨store, [], some e⟩
  | .beginFail e => ⟨store, [.connect, .rollbackTx, .endConn], some e⟩
  | .insertFail e => ⟨store, [.connect, .beginTx, .rollbackTx, .endConn], some e⟩
  | .selectFail e =>
    ⟨store, [.connect, .beginTx, .insertRow, .rollbackTx, .endConn], some e⟩
  | .listFail e =>
    ⟨store, [.connect, .beginTx, .insertRow, .queryResolve, .rollbackTx, .endConn],
      some e⟩
  | .writeFail e =>
    ⟨store, [.connect, .beginTx, .insertRow, .queryResolve, .listComments,
      .rollbackTx, .endConn], some e⟩
  | .commitFail e =>
    ⟨store, [.connect, .beginTx, .insertRow, .queryResolve, .listComments,
      syncEvent gh, .rollbackTx, .endConn], some e⟩

/-! ## The retry loop -/

/-- The error thrown by the statement after the loop
(`Failed after ${MAX_RETRIES} attempts`); unreachable from attempt 1 with
full fuel, faithfully modelled anyway. -/
def exhaustedError : JsError := ⟨none, none, "Failed after 3 attempts"⟩

/-- Result of running `processWithRetry`: number of attempts made, the sleep
trace (attempt number, milliseconds), the propagated error (`none` on
success), the final durable store, and the per-attempt event traces. -/
structure RunResult where
  attempts : Nat
  sleeps : List (Nat × Nat)
  error : Option JsError
  store : List Row
  attemptEvents : List (List Event)
  deriving Repr, DecidableEq

/-- The branch of the outer `catch` that retries: no truthy GitHub `status`,
a recognized transient-conflict code, and not the last attempt. -/
def retryBranch (e : JsError) (attempt : Nat) : Bool :=
  !statusTruthy e && isRetryCode e && attempt != MAX_RETRIES

/-- The `for (let attempt = 1; attempt <= MAX_RETRIES; attempt++)` loop,
with fuel counting the remaining iterations. On a thrown error: a truthy
`error.status` rethrows immediately; a transient-conflict code on a
non-final attempt sleeps `RETRY_DELAY * attempt` and continues; everything
else rethrows immediately. -/
def runLoop (script : Nat → StepOutcome) (row : Row) (gh : List Comment) :
    Nat → List Row → Nat → RunResult
  | 0, store, _ => ⟨0, [], some exhaustedError, store, []⟩
  | fuel + 1, store, attempt =>
    let ar := runAttempt store row gh (script attempt)
    match ar.error with
    | none => ⟨1, [], none, ar.store, [ar.events]⟩
    | some e =>
      if retryBranch e attempt then
        let rest := runLoop script row gh fuel ar.store (attempt + 1)
        ⟨rest.attempts + 1, (attempt, RETRY_DELAY * attempt) :: rest.sleeps,
          rest.error, rest.store, ar.events :: rest.attemptEvents⟩
      else ⟨1, [], some e, ar.store, [ar.events]⟩

/-- The `processWithRetry` function from `src/unnamed/part_000`: run the attempt loop from
attempt 1 with `MAX_RETRIES` iterations available, on the given initial
durable store. The `script` says how the environment behaves on each
attempt. -/
def processWithRetry (script : Nat → StepOutcome) (store : List Row)
    (row : Row) (gh : List Comment) : RunResult :=
  runLoop script row gh MAX_RETRIES store 1

/-! ## Concrete fixtures used by witnesses and counterexamples -/

/-- A lock-not-available store error. -/
def lockErr : JsError := ⟨none, some "55P03", "lock timeout"⟩

/-- A GitHub API (collaborator) error with a truthy HTTP status. -/
def ghErr : JsError := ⟨some 500, none, "Internal Server Error"⟩

/-- A concrete appended row for revision `abc123`. -/
def row0 : Row := ⟨1, 7, "abc123", "build ok", 100, "ci/test", 10, 1⟩

/-- An environment in which every attempt fails with a transient conflict. -/
def scriptAllTransient : Nat → StepOutcome := fun _ => .insertFail lockErr

/-- An environment in which every attempt fails fatally in External Sync. -/
def scriptGhFail : Nat → StepOutcome := fun _ => .writeFail ghErr

/-- A bot comment whose body carries the marker but references a different
revision (`deadbeef`), not the current one (`abc123`). -/
def staleComment : Comment :=
  ⟨42, "Bot", "### Automated Workflow Results for commit deadbeef"⟩

/-- A superseding retry of `row0`'s producer: same source, run 10 attempt 2,
with an earlier `created_at` (clock skew). -/
def row1 : Row := ⟨2, 7, "abc123", "retry ok", 90, "ci/test", 10, 2⟩

/-- A row of a different producer on the same revision. -/
def row2 : Row := ⟨3, 7, "abc123", "lint ok", 110, "ci/lint", 11, 1⟩

/-- A concrete committed row set for PR 7, revision `abc123`. -/
def rows3 : List Row := [row0, row1, row2]

/-! ## Lemmas about the resolve query -/

theorem betterRun_eq_false_iff (r a : Row) :
    betterRun r a = false ↔ pairLe (runKey r) (runKey a) := by
  simp only [betterRun, pairLe, runKey, Bool.or_eq_false_iff, Bool.and_eq_false_iff,
    decide_eq_false_iff_not, not_lt]
  omega

theorem pairLe_refl (p : Nat × Nat) : pairLe p p := by
  unfold pairLe; omega

theorem pairLe_trans {p q r : Nat × Nat} (h1 : pairLe p q) (h2 : pairLe q r) :
    pairLe p r := by
  unfold pairLe at *; omega

theorem betterRun_eq_true_imp {r a : Row} (h : betterRun r a = true) :
    pairLe (runKey a) (runKey r) := by
  simp only [betterRun, Bool.or_eq_true, Bool.and_eq_true, decide_eq_true_eq] at h
  unfold pairLe runKey; omega

theorem pickMax_go (a : Row) (l : List Row) :
    ∃ b, l.foldl pickStep (some a) = some b ∧ (b = a ∨ b ∈ l) ∧
      pairLe (runKey a) (runKey b) ∧ ∀ x ∈ l, pairLe (runKey x) (runKey b) := by
  induction l generalizing a with
  | nil =>
    exact ⟨a, rfl, Or.inl rfl, pairLe_refl _, by simp⟩
  | cons r t ih =>
    simp only [List.foldl_cons, pickStep]
    by_cases hbr : betterRun r a = true
    · rw [if_pos hbr]
      obtain ⟨b, hb, hmem, hle, hall⟩ := ih r
      refine ⟨b, hb, ?_, ?_, ?_⟩
      · rcases hmem with h | h
        · exact Or.inr (by rw [h]; exact List.mem_cons_self _ _)
        · exact Or.inr (List.mem_cons_of_mem _ h)
      · exact pairLe_trans (betterRun_eq_true_imp hbr) hle
      · intro x hx
        rcases List.mem_cons.mp hx with h | h
        · exact h ▸ hle
        · exact hall x h
    · rw [if_neg hbr]
      obtain ⟨b, hb, hmem, hle, hall⟩ := ih a
      refine ⟨b, hb, ?_, hle, ?_⟩
      · rcases hmem with h | h
        · exact Or.inl h
        · exact Or.inr (List.mem_cons_of_mem _ h)
      · intro x hx
        rcases List.mem_cons.mp hx with h | h
        · have hra : pairLe (runKey r) (runKey a) :=
            (betterRun_eq_false_iff r a).mp (Bool.eq_false_iff.mpr hbr)
          exact h ▸ pairLe_trans hra hle
        · exact hall x h

theorem pickMax_spec {l : List Row} (hne : l ≠ []) :
    ∃ b, pickMax l = some b ∧ b ∈ l ∧ ∀ x ∈ l, pairLe (runKey x) (runKey b) := by
  cases l with
  | nil => exact absurd rfl hne
  | cons r t =>
    obtain ⟨b, hb, hmem, hra, hall⟩ := pickMax_go r t
    refine ⟨b, ?_, ?_, ?_⟩
    · simpa [pickMax, List.foldl_cons, pickStep] using hb
    · rcases hmem with h | h
      · rw [h]; exact List.mem_cons_self _ _
      · exact List.mem_cons_of_mem _ h
    · intro x hx
      rcases List.mem_cons.mp hx with h | h
      · subst h; exact hra
      · exact hall x h

theorem pickMax_none_of_nil : pickMax [] = none := rfl

theorem latestForSource_spec {s : String} {m : List Row}
    (h : ∃ r ∈ m, r.source = s) :
    ∃ b, latestForSource s m = some b ∧ b ∈ m ∧ b.source = s ∧
      ∀ x ∈ m, x.source = s → pairLe (runKey x) (runKey b) := by
  obtain ⟨r, hr, hrs⟩ := h
  have hrf : r ∈ m.filter (fun x => x.source == s) := by
    simp [List.mem_filter, hr, hrs]
  have hne : m.filter (fun x => x.source == s) ≠ [] :=
    List.ne_nil_of_mem hrf
  obtain ⟨b, hb, hmem, hall⟩ := pickMax_spec hne
  have hbf := List.mem_filter.mp hmem
  refine ⟨b, hb, hbf.1, by simpa using hbf.2, ?_⟩
  intro x hx hxs
  exact hall x (by simp [List.mem_filter, hx, hxs])

theorem sourcesOf_mem_iff {m : List Row} {s : String} :
    s ∈ sourcesOf m ↔ ∃ r ∈ m, r.source = s := by
  simp [sourcesOf, List.mem_dedup, List.mem_map, eq_comm]

/-- Each source in a list of distinct sources of `m` is resolved to exactly one
row, whose source is that source. -/
theorem resolveCore_map_source (m : List Row) (ss : List String)
    (hss : ∀ s ∈ ss, ∃ r ∈ m, r.source = s) :
    (ss.filterMap (fun s => latestForSource s m)).map (fun r => r.source) = ss := by
  induction ss with
  | nil => simp
  | cons s t ih =>
    obtain ⟨b, hb, _, hbs, _⟩ := latestForSource_spec (hss s (List.mem_cons_self _ _))
    have ht : ∀ x ∈ t, ∃ r ∈ m, r.source = x :=
      fun x hx => hss x (List.mem_cons_of_mem _ hx)
    simp [List.filterMap_cons, hb, hbs, ih ht]

theorem resolveCore_mem {m : List Row} {ss : List String} {r : Row}
    (hr : r ∈ ss.filterMap (fun s => latestForSource s m)) :
    r ∈ m ∧ ∀ x ∈ m, x.source = r.source → pairLe (runKey x) (runKey r) := by
  obtain ⟨s, hs, hsome⟩ := List.mem_filterMap.mp hr
  have hex : ∃ x ∈ m, x.source = s := by
    by_contra hno
    push_neg at hno
    have : m.filter (fun x => x.source == s) = [] := by
      apply List.filter_eq_nil_iff.mpr
      intro x hx
      simpa using hno x hx
    simp [latestForSource, this, pickMax_none_of_nil] at hsome
  obtain ⟨b, hb, hbm, hbs, hall⟩ := latestForSource_spec hex
  rw [hb] at hsome
  cases hsome
  exact ⟨hbm, fun x hx hxs => hall x hx (hxs.trans hbs)⟩

theorem matchingRows_mem {pr : Nat} {sha : String} {rows : List Row} {r : Row} :
    r ∈ matchingRows pr sha rows ↔ r ∈ rows ∧ r.pr_number = pr ∧ r.commit_sha = sha := by
  simp [matchingRows, List.mem_filter]

/-! ## Claim theorems -/

/-- C1: For every set of committed message rows for the same
`(parent_thread_id, revision_id)` — i.e. `(pr_number, commit_sha)` — the
resolved view returned by the Append-Resolve Transaction's query contains
exactly one record per distinct `source_key` (its source list is
duplicate-free and covers exactly the sources of the matching rows), each
returned record is a matching row maximal in `(run_id, run_attempt)` among
the matching rows of its source, and the returned sequence is ordered
ascending by `created_at`. -/
theorem resolvedView_correct (pr : Nat) (sha : String) (rows : List Row) :
    ((resolvedView pr sha rows).map (fun r => r.source)).Nodup
    ∧ (∀ s, s ∈ (resolvedView pr sha rows).map (fun r => r.source) ↔
        ∃ r ∈ matchingRows pr sha rows, r.source = s)
    ∧ (∀ r ∈ resolvedView pr sha rows,
        r ∈ matchingRows pr sha rows ∧
        ∀ x ∈ matchingRows pr sha rows, x.source = r.source →
          pairLe (runKey x) (runKey r))
    ∧ (resolvedView pr sha rows).Sorted createdLe := by
  set m := matchingRows pr sha rows with hm
  have hss : ∀ s ∈ sourcesOf m, ∃ r ∈ m, r.source = s :=
    fun s hs => sourcesOf_mem_iff.mp hs
  have hperm : List.Perm (resolvedView pr sha rows)
      ((sourcesOf m).filterMap (fun s => latestForSource s m)) := by
    simpa [resolvedView, hm] using
      (List.perm_insertionSort createdLe
        ((sourcesOf m).filterMap (fun s => latestForSource s m)))
  have hmapsrc := resolveCore_map_source m (sourcesOf m) hss
  refine ⟨?_, ?_, ?_, ?_⟩
  · have hnd : ((sourcesOf m).filterMap
        (fun s => latestForSource s m)).map (fun r => r.source) |>.Nodup := by
      rw [hmapsrc]
      exact List.nodup_dedup _
    exact ((hperm.map (fun r => r.source)).nodup_iff).mpr hnd
  · intro s
    have : s ∈ (resolvedView pr sha rows).map (fun r => r.source) ↔
        s ∈ ((sourcesOf m).filterMap (fun s => latestForSource s m)).map
          (fun r => r.source) :=
      (hperm.map (fun r => r.source)).mem_iff
    rw [this, hmapsrc, sourcesOf_mem_iff]
  · intro r hr
    exact resolveCore_mem (hperm.mem_iff.mp hr)
  · simpa [resolvedView, hm] using
      List.sorted_insertionSort createdLe
        ((sourcesOf m).filterMap (fun s => latestForSource s m))

/-- Witness for C1 at a concrete committed row set: the superseding retry
`row1` (run 10, attempt 2) is in the resolved view, is a matching row, and
dominates `row0` (run 10, attempt 1) of the same source in
`(run_id, run_attempt)`. -/
theorem resolvedView_correct_witness :
    row1 ∈ matchingRows 7 "abc123" rows3 ∧
    pairLe (runKey row0) (runKey row1) := by
  have h := (resolvedView_correct 7 "abc123" rows3).2.2.1 row1 (by decide)
  exact ⟨h.1, h.2 row0 (by decide) (by decide)⟩

/-- C10: after the insert, the resolve over the same `(pr_number, commit_sha)`
sees the just-appended row's source: the resolved sequence is non-empty and
contains a record whose `source` equals the appended `source`. -/
theorem resolvedView_after_insert (pr : Nat) (sha : String)
    (store : List Row) (newRow : Row)
    (hpr : newRow.pr_number = pr) (hsha : newRow.commit_sha = sha) :
    resolvedView pr sha (store ++ [newRow]) ≠ [] ∧
    ∃ r ∈ resolvedView pr sha (store ++ [newRow]), r.source = newRow.source := by
  have hmem : newRow ∈ matchingRows pr sha (store ++ [newRow]) :=
    matchingRows_mem.mpr ⟨by simp, hpr, hsha⟩
  obtain ⟨_, hiff, _, _⟩ := resolvedView_correct pr sha (store ++ [newRow])
  have hs : newRow.source ∈
      (resolvedView pr sha (store ++ [newRow])).map (fun r => r.source) :=
    (hiff newRow.source).mpr ⟨newRow, hmem, rfl⟩
  obtain ⟨r, hr, hrs⟩ := List.mem_map.mp hs
  exact ⟨List.ne_nil_of_mem hr, r, hr, hrs⟩

/-- Witness for C10: appending `row0` (revision `abc123`, PR 7) to an empty
store yields a non-empty resolved view containing `ci/test`. -/
theorem resolvedView_after_insert_witness :
    resolvedView 7 "abc123" ([] ++ [row0]) ≠ [] ∧
    ∃ r ∈ resolvedView 7 "abc123" ([] ++ [row0]), r.source = row0.source :=
  resolvedView_after_insert 7 "abc123" [] row0 rfl rfl

/-- C7: the source key is order-independent in the matrix entries: two parsed
matrix descriptors holding the same key/value pairs in any order produce the
same key. -/
theorem generateSource_perm_invariant (w j : String)
    (m1 m2 : List (String × String)) (h : List.Perm m1 m2) :
    generateSource w j (.parsed m1) = generateSource w j (.parsed m2) := by
  have hmap : List.Perm (entryStrings m1) (entryStrings m2) :=
    h.map (fun kv : String × String => kv.1 ++ "=" ++ kv.2)
  have hperm : List.Perm (List.insertionSort strLe (entryStrings m1))
      (List.insertionSort strLe (entryStrings m2)) :=
    ((List.perm_insertionSort strLe (entryStrings m1)).trans hmap).trans
      (List.perm_insertionSort strLe (entryStrings m2)).symm
  have heq : List.insertionSort strLe (entryStrings m1) =
      List.insertionSort strLe (entryStrings m2) :=
    List.eq_of_perm_of_sorted hperm
      (List.sorted_insertionSort strLe (entryStrings m1))
      (List.sorted_insertionSort strLe (entryStrings m2))
  simp [generateSource, matrixParamsOf, heq]

/-- Witness for C7 at the spec's concrete instance:
`sourceKey(w, j, {b:2, a:1}) == sourceKey(w, j, {a:1, b:2})`. -/
theorem generateSource_perm_invariant_witness :
    List.Perm [("b", "2"), ("a", "1")] [("a", "1"), ("b", "2")] ∧
    generateSource "w" "j" (.parsed [("b", "2"), ("a", "1")]) =
      generateSource "w" "j" (.parsed [("a", "1"), ("b", "2")]) :=
  ⟨List.Perm.swap _ _ _,
    generateSource_perm_invariant "w" "j" _ _ (List.Perm.swap _ _ _)⟩

/-- C8: the Source Key Generator never fails. With no matrix input it returns
the unsuffixed `workflow/job` key with no warning; with a present-but-
unparseable matrix descriptor it returns the unsuffixed key and emits the
warning side effect. -/
theorem generateSource_total (w j : String) :
    generateSource w j .absent = (w ++ "/" ++ j, false) ∧
    generateSource w j .malformed = (w ++ "/" ++ j, true) := by
  constructor <;> simp [generateSource, matrixParamsOf]

/-! ## Lemmas about attempts and the retry loop -/

theorem runAttempt_error (store : List Row) (row : Row) (gh : List Comment)
    (sf : StepOutcome) : (runAttempt store row gh sf).error = stepError sf := by
  cases sf <;> rfl

theorem runAttempt_store_of_fail (store : List Row) (row : Row)
    (gh : List Comment) {sf : StepOutcome} {e : JsError}
    (h : stepError sf = some e) : (runAttempt store row gh sf).store = store := by
  cases sf <;> first | rfl | simp [stepError] at h

theorem stepError_eq_none_iff {sf : StepOutcome} :
    stepError sf = none ↔ sf = .ok := by
  cases sf <;> simp [stepError]

theorem runLoop_retry (script : Nat → StepOutcome) (row : Row)
    (gh : List Comment) (fuel : Nat) (store : List Row) (attempt : Nat)
    (e : JsError) (he : stepError (script attempt) = some e)
    (hb : retryBranch e attempt = true) :
    runLoop script row gh (fuel + 1) store attempt =
      ⟨(runLoop script row gh fuel store (attempt + 1)).attempts + 1,
       (attempt, RETRY_DELAY * attempt) ::
         (runLoop script row gh fuel store (attempt + 1)).sleeps,
       (runLoop script row gh fuel store (attempt + 1)).error,
       (runLoop script row gh fuel store (attempt + 1)).store,
       (runAttempt store row gh (script attempt)).events ::
         (runLoop script row gh fuel store (attempt + 1)).attemptEvents⟩ := by
  have hst := runAttempt_store_of_fail store row gh he
  simp only [runLoop, runAttempt_error, he, hst, hb, if_true]

theorem runLoop_throw (script : Nat → StepOutcome) (row : Row)
    (gh : List Comment) (fuel : Nat) (store : List Row) (attempt : Nat)
    (e : JsError) (he : stepError (script attempt) = some e)
    (hb : retryBranch e attempt = false) :
    runLoop script row gh (fuel + 1) store attempt =
      ⟨1, [], some e, store, [(runAttempt store row gh (script attempt)).events]⟩ := by
  have hst := runAttempt_store_of_fail store row gh he
  simp only [runLoop, runAttempt_error, he, hst, hb, if_false, Bool.false_eq_true]

theorem runLoop_ok (script : Nat → StepOutcome) (row : Row)
    (gh : List Comment) (fuel : Nat) (store : List Row) (attempt : Nat)
    (he : stepError (script attempt) = none) :
    runLoop script row gh (fuel + 1) store attempt =
      ⟨1, [], none, store ++ [row],
        [(runAttempt store row gh (script attempt)).events]⟩ := by
  have hok : script attempt = .ok := stepError_eq_none_iff.mp he
  simp only [runLoop, runAttempt_error, he, hok, runAttempt]

theorem retryBranch_true_iff (e : JsError) (attempt : Nat) :
    retryBranch e attempt = true ↔
      statusTruthy e = false ∧ isRetryCode e = true ∧ attempt ≠ MAX_RETRIES := by
  simp [retryBranch, Bool.and_eq_true, Bool.not_eq_true', and_assoc]

theorem runLoop_sleeps (script : Nat → StepOutcome) (row : Row)
    (gh : List Comment) :
    ∀ (fuel : Nat) (store : List Row) (attempt : Nat),
      ∀ p ∈ (runLoop script row gh fuel store attempt).sleeps,
        p.2 = RETRY_DELAY * p.1 ∧ attempt ≤ p.1 ∧ p.1 < attempt + fuel ∧
          p.1 ≠ MAX_RETRIES := by
  intro fuel
  induction fuel with
  | zero =>
    intro store attempt p hp
    simp [runLoop] at hp
  | succ n ih =>
    intro store attempt p hp
    cases he : stepError (script attempt) with
    | none =>
      rw [runLoop_ok script row gh n store attempt he] at hp
      simp at hp
    | some e =>
      cases hb : retryBranch e attempt with
      | false =>
        rw [runLoop_throw script row gh n store attempt e he hb] at hp
        simp at hp
      | true =>
        rw [runLoop_retry script row gh n store attempt e he hb] at hp
        rcases List.mem_cons.mp hp with h | h
        · subst h
          obtain ⟨-, -, hne⟩ := (retryBranch_true_iff e attempt).mp hb
          exact ⟨rfl, le_refl _, by omega, hne⟩
        · obtain ⟨h1, h2, h3, h4⟩ := ih store (attempt + 1) p h
          exact ⟨h1, by omega, by omega, h4⟩

/-! ## Remaining claim theorems -/

/-- C4: the controller classifies an error as transient-retryable exactly when
its SQLSTATE code is lock-not-available (55P03), deadlock-detected (40P01) or
statement-timeout (57014) — for store errors, which carry no HTTP status;
an error with a truthy HTTP status (a collaborator/GitHub API error) never
takes the retry branch; and an error whose code is not one of the three is
propagated immediately after a single attempt. -/
theorem error_classification :
    (∀ e : JsError, statusTruthy e = false →
      (isRetryCode e = true ↔
        (e.code = some "55P03" ∨ e.code = some "40P01" ∨ e.code = some "57014")))
    ∧ (∀ (e : JsError) (n : Nat), statusTruthy e = true → retryBranch e n = false)
    ∧ (∀ (script : Nat → StepOutcome) (store : List Row) (row : Row)
        (gh : List Comment) (e : JsError),
        stepError (script 1) = some e → isRetryCode e = false →
        (processWithRetry script store row gh).attempts = 1 ∧
        (processWithRetry script store row gh).error = some e) := by
  refine ⟨?_, ?_, ?_⟩
  · intro e _
    cases hc : e.code with
    | none => simp [isRetryCode, hc]
    | some c =>
      simp only [isRetryCode, hc, RETRY_ERROR_CODES, Option.some.injEq,
        List.contains_cons, List.contains_nil, Bool.or_eq_true, beq_iff_eq,
        Bool.or_eq_false_iff]
      tauto
  · intro e n hs
    simp [retryBranch, hs]
  · intro script store row gh e he hrc
    have hb : retryBranch e 1 = false := by
      simp [retryBranch, hrc]
    have h3 : MAX_RETRIES = 2 + 1 := rfl
    rw [processWithRetry, h3, runLoop_throw script row gh 2 store 1 e he hb]
    exact ⟨rfl, rfl⟩

/-- Witness for C4: the deadlock code 40P01 without an HTTP status is
classified retryable, and a GitHub error with status 500 never takes the
retry branch; a constraint-violation code 23505 is propagated after exactly
one attempt. -/
theorem error_classification_witness :
    (statusTruthy ⟨none, some "40P01", "deadlock detected"⟩ = false ∧
      isRetryCode ⟨none, some "40P01", "deadlock detected"⟩ = true) ∧
    retryBranch ghErr 1 = false ∧
    ((processWithRetry (fun _ => .insertFail ⟨none, some "23505", "duplicate key"⟩)
        [] row0 []).attempts = 1 ∧
      (processWithRetry (fun _ => .insertFail ⟨none, some "23505", "duplicate key"⟩)
        [] row0 []).error = some ⟨none, some "23505", "duplicate key"⟩) :=
  ⟨⟨rfl, (error_classification.1 ⟨none, some "40P01", "deadlock detected"⟩ rfl).mpr
      (Or.inr (Or.inl rfl))⟩,
    error_classification.2.1 ghErr 1 rfl,
    error_classification.2.2 (fun _ => .insertFail ⟨none, some "23505", "duplicate key"⟩)
      [] row0 [] ⟨none, some "23505", "duplicate key"⟩ rfl rfl⟩

/-- C5: with a transient-conflict-classified error on every attempt, the
controller makes exactly `MAX_RETRIES` (= 3) attempts and then fails,
propagating the final attempt's error as the retries-exhausted failure;
with a fatally classified error on attempt 1 it makes exactly 1 attempt. -/
theorem retry_bound (script : Nat → StepOutcome) (store : List Row)
    (row : Row) (gh : List Comment) :
    ((∀ n, 1 ≤ n → n ≤ MAX_RETRIES → ∃ e, stepError (script n) = some e ∧
        statusTruthy e = false ∧ isRetryCode e = true) →
      (processWithRetry script store row gh).attempts = MAX_RETRIES ∧
      (processWithRetry script store row gh).error = stepError (script MAX_RETRIES))
    ∧ (∀ e, stepError (script 1) = some e →
        (statusTruthy e = true ∨ isRetryCode e = false) →
        (processWithRetry script store row gh).attempts = 1 ∧
        (processWithRetry script store row gh).error = some e) := by
  constructor
  · intro h
    obtain ⟨e1, he1, ht1, hr1⟩ := h 1 (by omega) (by decide)
    obtain ⟨e2, he2, ht2, hr2⟩ := h 2 (by omega) (by decide)
    obtain ⟨e3, he3, ht3, hr3⟩ := h 3 (by omega) (by decide)
    have hb1 : retryBranch e1 1 = true :=
      (retryBranch_true_iff e1 1).mpr ⟨ht1, hr1, by decide⟩
    have hb2 : retryBranch e2 2 = true :=
      (retryBranch_true_iff e2 2).mpr ⟨ht2, hr2, by decide⟩
    have hb3 : retryBranch e3 3 = false := by
      simp [retryBranch, MAX_RETRIES]
    have h3 : MAX_RETRIES = 2 + 1 := rfl
    rw [processWithRetry, h3,
      runLoop_retry script row gh 2 store 1 e1 he1 hb1,
      runLoop_retry script row gh 1 store 2 e2 he2 hb2,
      runLoop_throw script row gh 0 store 3 e3 he3 hb3]
    refine ⟨rfl, ?_⟩
    have h32 : (2 + 1 : Nat) = 3 := rfl
    rw [h32, he3]
  · intro e he hfatal
    have hb : retryBranch e 1 = false := by
      rcases hfatal with h | h <;> simp [retryBranch, h]
    have h3 : MAX_RETRIES = 2 + 1 := rfl
    rw [processWithRetry, h3, runLoop_throw script row gh 2 store 1 e he hb]
    exact ⟨rfl, rfl⟩

/-- Witness for C5: all-transient lock timeouts give exactly 3 attempts and
propagate the final lock timeout; a fatal GitHub failure on attempt 1 gives
exactly 1 attempt. -/
theorem retry_bound_witness :
    ((processWithRetry scriptAllTransient [] row0 []).attempts = MAX_RETRIES ∧
      (processWithRetry scriptAllTransient [] row0 []).error =
        stepError (scriptAllTransient MAX_RETRIES)) ∧
    ((processWithRetry scriptGhFail [] row0 []).attempts = 1 ∧
      (processWithRetry scriptGhFail [] row0 []).error = some ghErr) :=
  ⟨(retry_bound scriptAllTransient [] row0 []).1
      (fun _ _ _ => ⟨lockErr, rfl, rfl, rfl⟩),
    (retry_bound scriptGhFail [] row0 []).2 ghErr rfl (Or.inl rfl)⟩

/-- C9: linear backoff. Every wait recorded by the controller after a
transient-conflict failure on attempt `n` is exactly `RETRY_DELAY * n`
milliseconds, and only attempts `n < MAX_RETRIES` are followed by a wait;
moreover, when attempt 1 fails with a transient-classified error, the run's
first wait is exactly `(1, RETRY_DELAY * 1)`. -/
theorem backoff_linear (script : Nat → StepOutcome) (store : List Row)
    (row : Row) (gh : List Comment) :
    (∀ p ∈ (processWithRetry script store row gh).sleeps,
      p.2 = RETRY_DELAY * p.1 ∧ p.1 < MAX_RETRIES)
    ∧ (∀ e, stepError (script 1) = some e → statusTruthy e = false →
        isRetryCode e = true →
        (processWithRetry script store row gh).sleeps.head? =
          some (1, RETRY_DELAY * 1)) := by
  constructor
  · intro p hp
    obtain ⟨h1, h2, h3, h4⟩ :=
      runLoop_sleeps script row gh MAX_RETRIES store 1 p hp
    refine ⟨h1, ?_⟩
    have : MAX_RETRIES = 3 := rfl
    omega
  · intro e he ht hr
    have hb : retryBranch e 1 = true :=
      (retryBranch_true_iff e 1).mpr ⟨ht, hr, by decide⟩
    have h3 : MAX_RETRIES = 2 + 1 := rfl
    rw [processWithRetry, h3, runLoop_retry script row gh 2 store 1 e he hb]
    rfl

/-- Witness for C9: under all-transient failures the recorded wait after
attempt 1 is `(1, 1000)`, satisfying `p.2 = RETRY_DELAY * p.1` and
`p.1 < MAX_RETRIES`, and the first wait of the run is
`some (1, RETRY_DELAY * 1)`. -/
theorem backoff_linear_witness :
    ((1, 1000).2 = RETRY_DELAY * (1, 1000).1 ∧ (1, 1000).1 < MAX_RETRIES) ∧
    (processWithRetry scriptAllTransient [] row0 []).sleeps.head? =
      some (1, RETRY_DELAY * 1) :=
  ⟨(backoff_linear scriptAllTransient [] row0 []).1 (1, 1000) (by decide),
    (backoff_linear scriptAllTransient [] row0 []).2 lockErr rfl rfl rfl⟩

/-- C2 counterexample: with a fatal External Sync (GitHub) failure on the
write step, the run propagates the error and the store is unchanged — the
appended row `row0` is NOT durably committed, because the External Sync calls
run inside the transaction before `COMMIT` and the failure triggers
`ROLLBACK`. -/
theorem append_not_durable_counterexample :
    (processWithRetry scriptGhFail [] row0 []).error = some ghErr ∧
    (processWithRetry scriptGhFail [] row0 []).store = [] ∧
    row0 ∉ (processWithRetry scriptGhFail [] row0 []).store := by
  refine ⟨rfl, rfl, ?_⟩
  intro h
  simp [processWithRetry, runLoop, runAttempt, scriptGhFail, retryBranch,
    statusTruthy, ghErr] at h

/-- C2 amended: External Sync runs inside the transaction, before `COMMIT`;
if External Sync (list or update/create) fails fatally, the transaction is
rolled back and the appended row is NOT durable — the store is unchanged and
the error is propagated. On the success path `COMMIT` runs only after the
External Sync calls. -/
theorem externalSync_failure_rolls_back (store : List Row) (row : Row)
    (gh : List Comment) (e : JsError) :
    (runAttempt store row gh (.listFail e)).store = store
    ∧ (runAttempt store row gh (.writeFail e)).store = store
    ∧ (runAttempt store row gh (.listFail e)).events.count Event.commitTx = 0
    ∧ (runAttempt store row gh (.writeFail e)).events.count Event.commitTx = 0
    ∧ (runAttempt store row gh (.listFail e)).events.count Event.rollbackTx = 1
    ∧ (runAttempt store row gh (.writeFail e)).events.count Event.rollbackTx = 1
    ∧ (runAttempt store row gh (.listFail e)).error = some e
    ∧ (runAttempt store row gh (.writeFail e)).error = some e
    ∧ (runAttempt store row gh .ok).events =
        [.connect, .beginTx, .insertRow, .queryResolve, .listComments,
          syncEvent gh, .commitTx, .endConn, .endConn] :=
  ⟨rfl, rfl, rfl, rfl, rfl, rfl, rfl, rfl, rfl⟩

/-- C3 counterexample: the marker the source scans for is the fixed string
`"Automated Workflow Results for commit"` with no revision id appended, so a
bot comment whose body references a different revision (`deadbeef`) is
selected and updated in place even though the current revision is `abc123`
(its body does not contain `"commit abc123"`). -/
theorem canonical_selection_counterexample :
    findBotComment [staleComment] = some staleComment ∧
    strContainsSub staleComment.body "commit abc123" = false ∧
    syncEvent [staleComment] = .updateComment 42 := by
  refine ⟨?_, ?_, ?_⟩ <;> decide

/-- C3 amended: External Sync selects as canonical the first listed comment
authored by the Bot identity whose body contains the fixed marker
`"Automated Workflow Results for commit"` — a marker that does not reference
any specific `revision_id`, so a bot comment for a different revision of the
same parent thread can be selected. If such a comment exists it is updated
in place, otherwise a new comment is created. -/
theorem canonical_selection (cs : List Comment) (c : Comment) :
    (findBotComment cs = some c ↔
      isTargetComment c = true ∧
      ∃ pre post, cs = pre ++ c :: post ∧ ∀ x ∈ pre, isTargetComment x = false)
    ∧ (findBotComment cs = some c → syncEvent cs = .updateComment c.id)
    ∧ (findBotComment cs = none → syncEvent cs = .createComment)
    ∧ isTargetComment c = (c.userType == "Bot" && strContainsSub c.body MARKER) := by
  refine ⟨?_, ?_, ?_, rfl⟩
  · rw [findBotComment, List.find?_eq_some]
    simp
  · intro h
    simp [syncEvent, findBotComment] at h ⊢
    rw [h]
  · intro h
    unfold syncEvent
    rw [h]

/-- Witness for C3 (amended): with the stale bot comment as the only listed
comment, External Sync updates it in place. -/
theorem canonical_selection_witness :
    syncEvent [staleComment] = .updateComment staleComment.id :=
  (canonical_selection [staleComment] staleComment).2.1 (by rfl)

/-- C6 counterexample: on the success exit path the connection is released
twice, not exactly once — `client.end()` runs explicitly before `return` and
then again in the `finally` block. -/
theorem connection_release_counterexample :
    (runAttempt [] row0 [] .ok).events.count Event.endConn = 2 := by
  decide

theorem syncEvent_beq_endConn (gh : List Comment) :
    (syncEvent gh == Event.endConn) = false := by
  cases h : findBotComment gh <;> simp [syncEvent, h]

/-- C6 amended: on every error exit path of an attempt after a successful
connect, the connection is released exactly once; but on the success path it
is released twice (the explicit `client.end()` before `return` plus the one
in `finally`), and when `connect` itself fails it is never released. -/
theorem connection_release_per_path (store : List Row) (row : Row)
    (gh : List Comment) (sf : StepOutcome) :
    (runAttempt store row gh sf).events.count Event.endConn =
      (match sf with
       | .ok => 2
       | .connectFail _ => 0
       | _ => 1) := by
  cases sf <;>
    simp [runAttempt, List.count_cons, List.count_nil, syncEvent_beq_endConn]

end GithubComment
